import Mathlib

/-!
Verification of the voice-realtime bridge server (`server.js`): a shallow
embedding of the program's pure data transformations and of the per-call
bridge session logic, with theorems checking the natural-language design
document against the code.

Conventions of the embedding:
* JavaScript byte buffers are `List Nat` (each entry one byte value);
  machine integers are `Nat`/`Int` with explicit masks where overflow or
  truncation matters.
* JavaScript `Map` objects keyed by strings are modelled as functions
  `String → Option _` (only `get`/`set`/`delete`/`clear` are used by the
  source, never iteration, so extensional maps are a faithful model).
* JavaScript falsy-string tests (`a || b` on strings) are modelled by
  `strOr`, with the empty string playing the role of `undefined`/`""`.
* Asynchronous callbacks are modelled as explicit state-passing functions;
  the outcome of an external network call (the post-call transcription
  request) is a parameter of type `Option String` (`none` = failure/null).
-/

namespace VoiceBridge

/-! ## AudioCodec (`decodeMuLawSample`, `decodeMuLawBase64ToPcm16`) -/

/-- `const MULAW_BIAS = 0x84;` from the source. -/
def MULAW_BIAS : Nat := 0x84

/-- Embedding of `decodeMuLawSample` from the source:
`mu = ~value & 0xff`, `sign = mu & 0x80`, `exponent = (mu & 0x70) >> 4`,
`mantissa = mu & 0x0f`, `sample = ((mantissa << 4) + 0x08) << (exponent + 3)`,
then subtract the bias, negate on sign, and clamp to the signed 16-bit range. -/
def decodeMuLawSample (value : Nat) : Int :=
  let mu := (value % 256) ^^^ 0xff
  let sign := mu &&& 0x80
  let exponent := (mu &&& 0x70) >>> 4
  let mantissa := mu &&& 0x0f
  let sample : Int := ((((mantissa <<< 4) + 0x08) <<< (exponent + 3) : Nat) : Int)
  let sample := sample - (MULAW_BIAS : Int)
  let sample := if sign ≠ 0 then -sample else sample
  if sample > 32767 then 32767 else if sample < -32768 then -32768 else sample

/-- Reference definition following the spec's words (not the source): the
standard G.711 mu-law companding expansion — sign bit, 3-bit exponent,
4-bit mantissa, bias constant `0x84` (`((mantissa << 3) + 0x84) << exponent`
minus the bias), output clamped to the signed 16-bit range. -/
def standardMuLawDecode (value : Nat) : Int :=
  let mu := (value % 256) ^^^ 0xff
  let sign := mu &&& 0x80
  let exponent := (mu &&& 0x70) >>> 4
  let mantissa := mu &&& 0x0f
  let sample : Int := ((((mantissa <<< 3) + MULAW_BIAS) <<< exponent : Nat) : Int)
  let sample := sample - (MULAW_BIAS : Int)
  let sample := if sign ≠ 0 then -sample else sample
  if sample > 32767 then 32767 else if sample < -32768 then -32768 else sample

/-- Segment search of the standard reference mu-law encoder (the `seg_end`
table `{0xFF, 0x1FF, ..., 0x7FFF}` of the classic G.711 implementation). -/
def muLawSegment (mag : Nat) : Nat :=
  if mag ≤ 0xFF then 0
  else if mag ≤ 0x1FF then 1
  else if mag ≤ 0x3FF then 2
  else if mag ≤ 0x7FF then 3
  else if mag ≤ 0xFFF then 4
  else if mag ≤ 0x1FFF then 5
  else if mag ≤ 0x3FFF then 6
  else 7

/-- Reference definition following the spec's words (not the source): the
standard G.711 linear-to-mu-law encoder, used for the round-trip check. -/
def standardMuLawEncode (sample : Int) : Nat :=
  let mask : Nat := if sample < 0 then 0x7f else 0xff
  let mag : Nat := if sample < 0 then (-sample).toNat else sample.toNat
  let mag := min mag 32635
  let mag := mag + MULAW_BIAS
  let seg := muLawSegment mag
  let uval := (seg <<< 4) ||| ((mag >>> (seg + 3)) &&& 0x0f)
  uval ^^^ mask

/-- Little-endian two's-complement encoding of a 16-bit sample, as written by
`pcmBuffer.writeInt16LE(sample, i * 2)`. -/
def int16le (s : Int) : List Nat :=
  let u := (s % 65536).toNat
  [u % 256, u / 256]

/-- Embedding of `decodeMuLawBase64ToPcm16` from the source, at the byte
level: the base64 transport is abstracted away (the input is the byte list
that `Buffer.from(base64, "base64")` yields; the `if (!base64) return null`
guard corresponds to callers not delivering a frame at all and is modelled
at the call sites).  The loop writes `decodeMuLawSample(muLawBuffer[i])` as a
little-endian 16-bit sample at offset `2 * i`. -/
def decodeMuLawBase64ToPcm16 (muLawBuffer : List Nat) : List Nat :=
  (muLawBuffer.map (fun b => int16le (decodeMuLawSample b))).flatten

/-! ## WavContainerBuilder (`createWavFromPcmChunks`) -/

/-- `const SAMPLE_RATE_HZ = 8000;` from the source. -/
def SAMPLE_RATE_HZ : Nat := 8000

/-- Bytes written by `buffer.writeUInt16LE`. -/
def u16le (x : Nat) : List Nat := [x % 256, x / 256 % 256]

/-- Bytes written by `buffer.writeUInt32LE`. -/
def u32le (x : Nat) : List Nat :=
  [x % 256, x / 256 % 256, x / 65536 % 256, x / 16777216 % 256]

/-- The value a 4-byte little-endian field denotes. -/
def u32leVal : List Nat → Nat
  | [a, b, c, d] => a + 256 * b + 65536 * c + 16777216 * d
  | _ => 0

/-- The 44-byte header assembled by `createWavFromPcmChunks`: the writes at
offsets 0,4,8,12,16,20,22,24,28,32,34,36,40 laid out in sequence
(`"RIFF"`, riff length, `"WAVE"`, `"fmt "`, 16, PCM format 1, mono 1,
sample rate, byte rate, block align 2, bit depth 16, `"data"`, data length). -/
def wavHeader (dataLen sampleRate : Nat) : List Nat :=
  [0x52, 0x49, 0x46, 0x46] ++ u32le (36 + dataLen) ++
  [0x57, 0x41, 0x56, 0x45, 0x66, 0x6d, 0x74, 0x20] ++ u32le 16 ++
  u16le 1 ++ u16le 1 ++ u32le sampleRate ++ u32le (sampleRate * 2) ++
  u16le 2 ++ u16le 16 ++ [0x64, 0x61, 0x74, 0x61] ++ u32le dataLen

/-- Embedding of `createWavFromPcmChunks` from the source: `null` when the
chunk list is empty (`!pcmChunks?.length`), otherwise the 44-byte header
followed by `Buffer.concat(pcmChunks)`. -/
def createWavFromPcmChunks (pcmChunks : List (List Nat)) (sampleRate : Nat) :
    Option (List Nat) :=
  if pcmChunks.isEmpty then none
  else
    let data := pcmChunks.flatten
    some (wavHeader data.length sampleRate ++ data)

/-! ## PromptStore (`putPrompt`, `getPrompt`) -/

/-- One record of the in-memory prompt store
(`prompts.set(id, { instructions, voice, model, createdAt })`). -/
structure PromptRecord where
  instructions : String
  voice : String
  model : String
  createdAt : Nat
deriving DecidableEq, Repr

/-- `const EXPIRY_MS = 10 * 60 * 1000;` from the source. -/
def EXPIRY_MS : Nat := 10 * 60 * 1000

/-- The `prompts` map, modelled extensionally. -/
abbrev PromptMap := String → Option PromptRecord

/-- Embedding of `putPrompt` from the source; the freshly generated UUID is a
parameter (`crypto.randomUUID()` is nondeterministic I/O), `Date.now()` is the
`now` parameter. -/
def putPrompt (prompts : PromptMap) (id instructions voice model : String)
    (now : Nat) : PromptMap :=
  fun k => if k = id then some ⟨instructions, voice, model, now⟩ else prompts k

/-- Embedding of `getPrompt` from the source: absent ids yield `null`; a
record older than `EXPIRY_MS` is deleted and `null` is returned; otherwise
the record is returned.  The second component is the store after the call. -/
def getPrompt (prompts : PromptMap) (id : String) (now : Nat) :
    Option PromptRecord × PromptMap :=
  match prompts id with
  | none => (none, prompts)
  | some p =>
    if now - p.createdAt > EXPIRY_MS then
      (none, fun k => if k = id then none else prompts k)
    else
      (some p, prompts)

/-! ## Text extraction (`textFrom`) -/

/-- Dynamic JSON-ish payload values handed to `textFrom`.  `nullv` stands for
the falsy non-string payloads (`null`/`undefined`), `other` for truthy
payloads that are neither strings, arrays nor objects (numbers etc.). -/
inductive JsValue where
  | nullv
  | other
  | str (s : String)
  | arr (elems : List JsValue)
  | obj (fields : List (String × JsValue))

/-- `typeof value.name === "string" ? value.name : skip`: the field holds a
string (possibly empty), otherwise (absent or non-string) no match. -/
def getStringField (fields : List (String × JsValue)) (name : String) :
    Option String :=
  match fields.lookup name with
  | some (JsValue.str s) => some s
  | _ => none

mutual

/-- Embedding of `textFrom` from the source: falsy payloads yield `""`;
strings are returned as-is; arrays map `textFrom` over the elements and join;
objects return the FIRST of the fields `text`, `transcript`, `delta`,
`content`, `value` that holds a string — even when that string is empty —
and `""` when none does. -/
def textFrom : JsValue → String
  | .nullv => ""
  | .other => ""
  | .str s => s
  | .arr vs => textFromList vs
  | .obj fields =>
      match getStringField fields "text" with
      | some s => s
      | none =>
        match getStringField fields "transcript" with
        | some s => s
        | none =>
          match getStringField fields "delta" with
          | some s => s
          | none =>
            match getStringField fields "content" with
            | some s => s
            | none =>
              match getStringField fields "value" with
              | some s => s
              | none => ""

/-- `value.map((v) => textFrom(v)).join("")` on array payloads. -/
def textFromList : List JsValue → String
  | [] => ""
  | v :: vs => textFrom v ++ textFromList vs

end

/-- Skip a field unless it holds a NON-EMPTY string, as the spec's words
require. -/
def firstNonEmptyField (fields : List (String × JsValue)) :
    List String → String
  | [] => ""
  | n :: ns =>
    match getStringField fields n with
    | some s => if s = "" then firstNonEmptyField fields ns else s
    | none => firstNonEmptyField fields ns

mutual

/-- Reference definition following the spec's words (not the source): like
`textFrom` but on object payloads it returns "the first non-empty match"
among the fields `text`, `transcript`, `delta`, `content`, `value`. -/
def textFromSpec : JsValue → String
  | .nullv => ""
  | .other => ""
  | .str s => s
  | .arr vs => textFromSpecList vs
  | .obj fields =>
      firstNonEmptyField fields ["text", "transcript", "delta", "content", "value"]

/-- Array case of `textFromSpec`. -/
def textFromSpecList : List JsValue → String
  | [] => ""
  | v :: vs => textFromSpec v ++ textFromSpecList vs

end

/-- The first of the listed field names under which the object holds a
string-typed value — possibly the empty string — matching the chain of
`typeof value.f === "string"` checks in `textFrom`. -/
def firstStringField (fields : List (String × JsValue)) :
    List String → Option String
  | [] => none
  | n :: ns =>
    match getStringField fields n with
    | some s => some s
    | none => firstStringField fields ns

/-! ## TranscriptAggregator
(`userKeyFor`, `pushUserTranscriptDelta`, `finalizeUserTranscript`) -/

/-- JavaScript `a || b` on strings: the empty string is falsy. -/
def strOr (a b : String) : String := if a = "" then b else a

/-- One in-flight utterance of `userTranscriptionPartials`
(`{ id, text }` values of the map). -/
structure PendingUtterance where
  id : String
  text : String
deriving DecidableEq, Repr

/-- The `userTranscriptionPartials` map, modelled extensionally. -/
abbrev PartialsMap := String → Option PendingUtterance

/-- A freshly created (or cleared) partials map. -/
def emptyPartials : PartialsMap := fun _ => none

/-- `userTranscriptionPartials.set(key, v)`. -/
def mapSet (m : PartialsMap) (key : String) (v : PendingUtterance) :
    PartialsMap :=
  fun k => if k = key then some v else m k

/-- `userTranscriptionPartials.delete(key)`. -/
def mapDelete (m : PartialsMap) (key : String) : PartialsMap :=
  fun k => if k = key then none else m k

/-- Embedding of `userKeyFor` from the source:
`` `${itemId || "user"}:${contentIndex ?? 0}` ``  (the `?? 0` is absorbed by
making `contentIndex` a `Nat`, as every caller defaults it to 0). -/
def userKeyFor (itemId : String) (contentIndex : Nat) : String :=
  strOr itemId "user" ++ ":" ++ toString contentIndex

/-- A normalized outbound transcript payload
`{role, id, text?, append?, final?}` as passed to `broadcastTranscript`. -/
structure TranscriptEvent where
  role : String
  id : String
  text : Option String
  append : Option Bool
  final : Option Bool
deriving DecidableEq, Repr

/-- Arguments of `pushUserTranscriptDelta`
(`{ itemId, fallbackId, contentIndex, chunk }`); absent ids are `""`. -/
structure DeltaArgs where
  itemId : String
  fallbackId : String
  contentIndex : Nat
  chunk : String
deriving DecidableEq, Repr

/-- Embedding of `pushUserTranscriptDelta` from the source: empty chunks are
dropped; otherwise the chunk is appended to the accumulated text under
`userKeyFor(itemId || fallbackId, contentIndex)` and the raw fragment is
broadcast with `append = true`.  The broadcast payloads are returned. -/
def pushUserTranscriptDelta (partials : PartialsMap) (a : DeltaArgs) :
    PartialsMap × List TranscriptEvent :=
  if a.chunk = "" then (partials, [])
  else
    let key := userKeyFor (strOr a.itemId a.fallbackId) a.contentIndex
    let existing := partials key
    let id := strOr (match existing with | some p => p.id | none => "")
      (strOr a.itemId (strOr a.fallbackId key))
    let text := (match existing with | some p => p.text | none => "") ++ a.chunk
    (mapSet partials key ⟨id, text⟩,
     [⟨"user", id, some a.chunk, some true, none⟩])

/-- Embedding of `finalizeUserTranscript` from the source: the entry under
the same key derivation is removed; the resolved text is
`finalText || existing?.text || ""`; the broadcast payload carries
`final = true` always, and `text`/`append = false` only when the resolved
text is non-empty. -/
def finalizeUserTranscript (partials : PartialsMap)
    (itemId fallbackId : String) (contentIndex : Nat) (finalText : String) :
    PartialsMap × TranscriptEvent :=
  let key := userKeyFor (strOr itemId fallbackId) contentIndex
  let existing := partials key
  let id := strOr (match existing with | some p => p.id | none => "")
    (strOr itemId (strOr fallbackId key))
  let text := strOr finalText (match existing with | some p => p.text | none => "")
  let ev : TranscriptEvent :=
    if text = "" then ⟨"user", id, none, none, some true⟩
    else ⟨"user", id, some text, some false, some true⟩
  (mapDelete partials key, ev)

/-- The key a delta event is aggregated under. -/
def deltaKey (a : DeltaArgs) : String :=
  userKeyFor (strOr a.itemId a.fallbackId) a.contentIndex

/-- State reached after a sequence of delta events. -/
def processDeltas (partials : PartialsMap) (ds : List DeltaArgs) : PartialsMap :=
  ds.foldl (fun m d => (pushUserTranscriptDelta m d).1) partials

/-- Concatenation, in arrival order, of the fragments of the delta events
aggregated under key `k`. -/
def concatChunksFor : List DeltaArgs → String → String
  | [], _ => ""
  | d :: ds, k => (if deltaKey d = k then d.chunk else "") ++ concatChunksFor ds k

/-- The text accumulated under a key (`""` when no entry is present). -/
def textAt (m : PartialsMap) (k : String) : String :=
  match m k with
  | some p => p.text
  | none => ""

/-! ## BridgeSession (`safeClose`, the `twilioWs.on("message")` handler) -/

/-- Observable outputs of the bridge session: status broadcasts
(`broadcastTranscriptStatus`), transcript broadcasts (`broadcastTranscript`)
and relays of a caller audio frame into the AI connection
(`openaiWs.send({type: "input_audio_buffer.append", ...})`). -/
inductive OutMsg where
  | status (status : String) (streamSid : Option String)
  | transcript (e : TranscriptEvent)
  | aiSend (payload : List Nat)
deriving DecidableEq, Repr

/-- Per-call mutable state of the `twilioWss.on("connection")` closure:
`streamSid` (latched once), whether `openaiWs` has been assigned,
`callActive`, `userTranscriptionPartials`, `inboundAudioPcmChunks` and the
one-shot `postCallTranscriptionStarted` guard (the spec's
`transcriptionStarted`). -/
structure BridgeState where
  streamSid : Option String
  openaiWsPresent : Bool
  callActive : Bool
  partials : PartialsMap
  inboundChunks : List (List Nat)
  transcriptionStarted : Bool

/-- A fresh session state, as initialized on `twilioWss.on("connection")`. -/
def initialBridgeState : BridgeState :=
  ⟨none, false, false, emptyPartials, [], false⟩

/-- The status/transcript broadcasts of the async post-call block inside
`safeClose`, inlined synchronously; `transcribeResult` is the outcome of the
external `transcribePostCallAudio` call (`none` = null/failure; `if
(transcriptText)` is falsy also for the empty string).  Both branches end
with `call_finished` (the `finally` clause). -/
def postCallPipelineMsgs (chunks : List (List Nat))
    (transcribeResult : Option String) (sid : Option String) : List OutMsg :=
  if chunks.length > 0 then
    OutMsg.status "post_call_processing" sid ::
      (match transcribeResult with
        | some t =>
          if t = "" then [OutMsg.status "post_call_transcription_failed" sid]
          else
            [OutMsg.transcript ⟨"user", "post-call-user", some t, some false, some true⟩,
             OutMsg.status "post_call_transcript_ready" sid]
        | none => [OutMsg.status "post_call_transcription_failed" sid])
      ++ [OutMsg.status "call_finished" sid]
  else
    [OutMsg.status "post_call_transcription_failed" sid,
     OutMsg.status "call_finished" sid]

/-- Embedding of `safeClose` from the source.  The best-effort socket closes
(whose failures are swallowed) have no observable effect on the modelled
state; `why` is only logged.  The partials map is cleared, `callActive`
drops, and — guarded by the one-shot `postCallTranscriptionStarted` flag —
the post-call transcription block runs, emptying `inboundAudioPcmChunks` and
emitting its status/transcript broadcasts. -/
def safeClose (st : BridgeState) (why : String)
    (transcribeResult : Option String) : BridgeState × List OutMsg :=
  let _ := why
  let st := { st with partials := emptyPartials, callActive := false }
  if st.transcriptionStarted then (st, [])
  else
    ({ st with transcriptionStarted := true, inboundChunks := [] },
     postCallPipelineMsgs st.inboundChunks transcribeResult st.streamSid)

/-- How many of a sequence of `safeClose` invocations (each with its trigger
reason and external transcription outcome) pass the one-shot guard and start
the post-call pipeline. -/
def countPipelineStarts : BridgeState → List (String × Option String) → Nat
  | _, [] => 0
  | st, c :: cs =>
    (if st.transcriptionStarted then 0 else 1) +
      countPipelineStarts (safeClose st c.1 c.2).1 cs

/-- Telephony-side events driving the `twilioWs.on("message")` handler and
the socket-level callbacks.  `start` carries whether `connectOpenAI`
succeeded; events that can trigger `safeClose` carry the external
transcription outcome used if the post-call pipeline runs.  A `media` payload
of `none` models an absent/empty `data.media?.payload` (falsy guard). -/
inductive TwilioEvent where
  | start (streamSid : Option String) (connectOk : Bool)
      (transcribeResult : Option String)
  | media (streamSid : Option String) (payload : Option (List Nat))
      (track : Option String)
  | stop (streamSid : Option String) (transcribeResult : Option String)
  | wsClose (transcribeResult : Option String)
  | wsError (transcribeResult : Option String)

/-- The `data.streamSid` field of an event (`none` = absent or empty). -/
def eventStreamSid : TwilioEvent → Option String
  | .start sid _ _ => sid
  | .media sid _ _ => sid
  | .stop sid _ => sid
  | .wsClose _ => none
  | .wsError _ => none

/-- `if (data.streamSid && !streamSid) streamSid = data.streamSid;`. -/
def latchStreamSid (st : BridgeState) (sid : Option String) : BridgeState :=
  match sid with
  | some s =>
    if s ≠ "" ∧ st.streamSid = none then { st with streamSid := some s } else st
  | none => st

/-- Embedding of the `twilioWs.on("message")` dispatch (and the socket
close/error callbacks) from the source.  `start`: on a successful
`connectOpenAI` the AI socket is assigned, `callActive` is set and
`call_started` is broadcast (the session-configuration messages sent inside
`connectOpenAI` are internal to that abstracted connector); on failure
`safeClose("openai_connect_error")` runs.  `media`: frames on the `inbound`
track (or with no/empty track label) are decoded and appended to
`inboundAudioPcmChunks` (`if (pcmChunk)` is always true — a Buffer is
truthy); the frame is relayed to the AI socket only when `openaiWs` has been
assigned (`openaiWs?.send`, with any send failure swallowed).  `stop` and the
socket callbacks run `safeClose`. -/
def handleTwilioEvent (st0 : BridgeState) (ev : TwilioEvent) :
    BridgeState × List OutMsg :=
  let st := latchStreamSid st0 (eventStreamSid ev)
  match ev with
  | .start _ connectOk res =>
      if connectOk then
        ({ st with openaiWsPresent := true, callActive := true },
         [OutMsg.status "call_started" st.streamSid])
      else
        safeClose st "openai_connect_error" res
  | .media _ payload track =>
      match payload with
      | none => (st, [])
      | some bytes =>
          let trackName := match track with
            | some t => strOr t "inbound"
            | none => "inbound"
          let st1 :=
            if trackName = "inbound" then
              { st with inboundChunks :=
                  st.inboundChunks ++ [decodeMuLawBase64ToPcm16 bytes] }
            else st
          (st1, if st.openaiWsPresent then [OutMsg.aiSend bytes] else [])
  | .stop _ res => safeClose st "twilio_stop" res
  | .wsClose res => safeClose st "twilio_closed" res
  | .wsError res => safeClose st "twilio_ws_error" res

/-- A session run: fold the handler over a list of telephony-side events,
collecting all broadcasts/sends in order. -/
def processTwilioEvents (st : BridgeState) (evs : List TwilioEvent) :
    BridgeState × List OutMsg :=
  evs.foldl
    (fun acc ev =>
      let r := handleTwilioEvent acc.1 ev
      (r.1, acc.2 ++ r.2))
    (st, [])

/-- The status strings among a list of outputs, in order. -/
def statusesOf (msgs : List OutMsg) : List String :=
  msgs.filterMap fun m =>
    match m with
    | .status s _ => some s
    | _ => none

/-! ## Helper lemmas -/

theorem u32leVal_u32le (x : Nat) (h : x < 2 ^ 32) : u32leVal (u32le x) = x := by
  simp only [u32le, u32leVal]
  omega

theorem int16le_length (s : Int) : (int16le s).length = 2 := rfl

theorem decode_frame_length (bytes : List Nat) :
    (decodeMuLawBase64ToPcm16 bytes).length = 2 * bytes.length := by
  induction bytes with
  | nil => rfl
  | cons b bs ih =>
    simp only [decodeMuLawBase64ToPcm16, List.map_cons, List.flatten_cons,
      List.length_append, List.length_cons, int16le_length] at ih ⊢
    omega

theorem decode_frame_index (bytes : List Nat) (i : Nat) (h : i < bytes.length) :
    ((decodeMuLawBase64ToPcm16 bytes).drop (2 * i)).take 2 =
      int16le (decodeMuLawSample (bytes.get ⟨i, h⟩)) := by
  induction bytes generalizing i with
  | nil => exact absurd h (by simp)
  | cons b bs ih =>
    cases i with
    | zero =>
      simp [decodeMuLawBase64ToPcm16, int16le]
    | succ j =>
      have hj : j < bs.length := by simpa using h
      have hstep :
          (decodeMuLawBase64ToPcm16 (b :: bs)).drop (2 * (j + 1)) =
            (decodeMuLawBase64ToPcm16 bs).drop (2 * j) := by
        have h2 : 2 * (j + 1) = 2 * j + 1 + 1 := by ring
        simp only [decodeMuLawBase64ToPcm16, List.map_cons, List.flatten_cons,
          int16le, h2, List.cons_append, List.nil_append, List.drop_succ_cons]
      rw [hstep]
      exact ih j hj

theorem textAt_push (m : PartialsMap) (d : DeltaArgs) (k : String) :
    textAt (pushUserTranscriptDelta m d).1 k =
      textAt m k ++ (if deltaKey d = k then d.chunk else "") := by
  by_cases hc : d.chunk = ""
  · simp [pushUserTranscriptDelta, hc]
  · by_cases hk : deltaKey d = k
    · subst hk
      simp only [pushUserTranscriptDelta, if_neg hc, textAt, deltaKey]
      simp [mapSet]
    · have hk2 : ¬k = userKeyFor (strOr d.itemId d.fallbackId) d.contentIndex := by
        intro h
        exact hk (by simpa [deltaKey] using h.symm)
      simp only [pushUserTranscriptDelta, if_neg hc, textAt, mapSet]
      rw [if_neg hk2, if_neg hk]
      simp

theorem textAt_processDeltas (ds : List DeltaArgs) (m : PartialsMap) (k : String) :
    textAt (processDeltas m ds) k = textAt m k ++ concatChunksFor ds k := by
  induction ds generalizing m with
  | nil => simp [processDeltas, concatChunksFor]
  | cons d ds ih =>
    show textAt (processDeltas (pushUserTranscriptDelta m d).1 ds) k = _
    rw [ih, textAt_push, concatChunksFor, String.append_assoc]

theorem textAt_emptyPartials (k : String) : textAt emptyPartials k = "" := rfl

theorem finalize_fst (m : PartialsMap) (i f : String) (ci : Nat) (t : String) :
    (finalizeUserTranscript m i f ci t).1 =
      mapDelete m (userKeyFor (strOr i f) ci) := rfl

theorem finalize_resolved (m : PartialsMap) (i f : String) (ci : Nat) :
    ((finalizeUserTranscript m i f ci "").2.text).getD "" =
      textAt m (userKeyFor (strOr i f) ci) := by
  have htx : strOr ""
      (match m (userKeyFor (strOr i f) ci) with
        | some p => p.text
        | none => "") = textAt m (userKeyFor (strOr i f) ci) := by
    simp [strOr, textAt]
  by_cases h : textAt m (userKeyFor (strOr i f) ci) = "" <;>
    simp only [finalizeUserTranscript, htx, h, if_pos, if_neg, if_true, if_false] <;>
    simp [h]

theorem mapDelete_self (m : PartialsMap) (k : String) : mapDelete m k k = none := by
  simp [mapDelete]

theorem mapDelete_other (m : PartialsMap) (k k2 : String) (h : k2 ≠ k) :
    mapDelete m k k2 = m k2 := by
  simp [mapDelete, h]

theorem textAt_mapDelete_other (m : PartialsMap) (k k2 : String) (h : k2 ≠ k) :
    textAt (mapDelete m k) k2 = textAt m k2 := by
  simp [textAt, mapDelete_other m k k2 h]

theorem finalize_ev (m : PartialsMap) (i f : String) (ci : Nat) (t : String) :
    (finalizeUserTranscript m i f ci t).2 =
      (if strOr t (textAt m (userKeyFor (strOr i f) ci)) = "" then
        (⟨"user",
          strOr
            (match m (userKeyFor (strOr i f) ci) with
              | some p => p.id
              | none => "")
            (strOr i (strOr f (userKeyFor (strOr i f) ci))), none, none,
          some true⟩ : TranscriptEvent)
      else
        ⟨"user",
          strOr
            (match m (userKeyFor (strOr i f) ci) with
              | some p => p.id
              | none => "")
            (strOr i (strOr f (userKeyFor (strOr i f) ci))),
          some (strOr t (textAt m (userKeyFor (strOr i f) ci))), some false,
          some true⟩) := rfl

theorem safeClose_sets_flag (st : BridgeState) (why : String)
    (res : Option String) :
    (safeClose st why res).1.transcriptionStarted = true := by
  by_cases h : st.transcriptionStarted <;> simp [safeClose, h]

theorem countPipelineStarts_of_started (cs : List (String × Option String))
    (st : BridgeState) (h : st.transcriptionStarted = true) :
    countPipelineStarts st cs = 0 := by
  induction cs generalizing st with
  | nil => rfl
  | cons c cs ih =>
    simp only [countPipelineStarts, h, if_pos, Nat.zero_add]
    exact ih _ (safeClose_sets_flag st c.1 c.2)

/-! ## Claim theorems -/

set_option maxRecDepth 8000 in
/-- C1: the claim says `decodeMuLawSample` equals the standard mu-law
companding expansion (sign bit, 3-bit exponent, 4-bit mantissa, bias 0x84,
clamped to the signed 16-bit range) and that re-encoding the decoded sample
with a standard reference encoder reproduces the byte.  The code disagrees
with the standard expansion at EVERY byte: at `0xFF` the code yields `-68`
where the standard expansion yields `0` (re-encoding the code's output gives
`0x76`, not `0xFF`), and at `0x00` the code overflows to the clamp bound
`-32768` where the standard expansion yields `-32124`. -/
theorem mulaw_decode_diverges_from_standard :
    decodeMuLawSample 0xff = -68 ∧
    standardMuLawDecode 0xff = 0 ∧
    standardMuLawEncode (decodeMuLawSample 0xff) = 0x76 ∧
    decodeMuLawSample 0x00 = -32768 ∧
    standardMuLawDecode 0x00 = -32124 ∧
    ∀ b, b < 256 → decodeMuLawSample b ≠ standardMuLawDecode b := by
  refine ⟨by decide, by decide, by decide, by decide, by decide, by decide⟩

set_option maxRecDepth 2000 in
/-- Witness for the bounded quantifier of
`mulaw_decode_diverges_from_standard`, instantiated at byte 10. -/
theorem mulaw_decode_diverges_witness :
    (10 : Nat) < 256 ∧ decodeMuLawSample 10 ≠ standardMuLawDecode 10 :=
  ⟨by decide, mulaw_decode_diverges_from_standard.2.2.2.2.2 10 (by decide)⟩

set_option maxHeartbeats 2000000 in
/-- C4: `createWavFromPcmChunks` returns no result on zero chunks; on a
non-empty chunk list totalling N bytes of PCM it returns exactly `44 + N`
bytes — a 44-byte header declaring mono (bytes 22-23), 16-bit depth (bytes
34-35) and the given sample rate (bytes 24-27), whose two length fields
(bytes 4-7 and 40-43) encode `36 + N` and `N` — followed by the concatenated
sample bytes in chunk order. -/
theorem wav_container_shape (pcmChunks : List (List Nat)) (sampleRate : Nat)
    (h : pcmChunks ≠ []) :
    createWavFromPcmChunks [] sampleRate = none ∧
    ∃ out, createWavFromPcmChunks pcmChunks sampleRate = some out ∧
      out.length = 44 + pcmChunks.flatten.length ∧
      out.drop 44 = pcmChunks.flatten ∧
      (out.drop 4).take 4 = u32le (36 + pcmChunks.flatten.length) ∧
      (out.drop 40).take 4 = u32le pcmChunks.flatten.length ∧
      (out.drop 22).take 2 = u16le 1 ∧
      (out.drop 34).take 2 = u16le 16 ∧
      (out.drop 24).take 4 = u32le sampleRate ∧
      (36 + pcmChunks.flatten.length < 2 ^ 32 →
        u32leVal ((out.drop 4).take 4) = 36 + pcmChunks.flatten.length ∧
        u32leVal ((out.drop 40).take 4) = pcmChunks.flatten.length) := by
  constructor
  · rfl
  · match pcmChunks, h with
    | a :: l, _ =>
      refine ⟨wavHeader ((a :: l).flatten).length sampleRate ++ (a :: l).flatten,
        rfl, ?_, rfl, rfl, rfl, rfl, rfl, rfl, ?_⟩
      · simp only [List.length_append]
        have hh : (wavHeader ((a :: l).flatten).length sampleRate).length = 44 := by
          simp [wavHeader, u32le, u16le]
        omega
      · intro hlt
        constructor
        · show u32leVal (u32le (36 + ((a :: l).flatten).length)) = _
          exact u32leVal_u32le _ hlt
        · show u32leVal (u32le ((a :: l).flatten).length) = _
          exact u32leVal_u32le _ (by omega)

/-- Witness for `wav_container_shape` at one concrete two-chunk input. -/
theorem wav_container_shape_witness :
    ([[1, 2], [3]] : List (List Nat)) ≠ [] ∧
    (createWavFromPcmChunks [] 8000 = none ∧
      ∃ out, createWavFromPcmChunks [[1, 2], [3]] 8000 = some out ∧
        out.length = 44 + ([[1, 2], [3]] : List (List Nat)).flatten.length ∧
        out.drop 44 = ([[1, 2], [3]] : List (List Nat)).flatten ∧
        (out.drop 4).take 4 =
          u32le (36 + ([[1, 2], [3]] : List (List Nat)).flatten.length) ∧
        (out.drop 40).take 4 = u32le ([[1, 2], [3]] : List (List Nat)).flatten.length ∧
        (out.drop 22).take 2 = u16le 1 ∧
        (out.drop 34).take 2 = u16le 16 ∧
        (out.drop 24).take 4 = u32le 8000 ∧
        (36 + ([[1, 2], [3]] : List (List Nat)).flatten.length < 2 ^ 32 →
          u32leVal ((out.drop 4).take 4) =
            36 + ([[1, 2], [3]] : List (List Nat)).flatten.length ∧
          u32leVal ((out.drop 40).take 4) =
            ([[1, 2], [3]] : List (List Nat)).flatten.length)) :=
  ⟨by decide, wav_container_shape [[1, 2], [3]] 8000 (by decide)⟩

/-- C7: after storing a prompt record, a lookup whose age is within the
10-minute time-to-live returns the stored record; a lookup once the age
exceeds the time-to-live returns not-found and leaves the store without the
record (as if it had never been stored); a lookup of an id never stored
returns not-found. -/
theorem prompt_ttl_lookup (prompts : PromptMap) (id instr voice model : String)
    (t0 now : Nat) (id2 : String) :
    (now - t0 ≤ EXPIRY_MS →
      (getPrompt (putPrompt prompts id instr voice model t0) id now).1 =
        some ⟨instr, voice, model, t0⟩) ∧
    (now - t0 > EXPIRY_MS →
      (getPrompt (putPrompt prompts id instr voice model t0) id now).1 = none ∧
      (getPrompt (putPrompt prompts id instr voice model t0) id now).2 id = none) ∧
    (prompts id2 = none → (getPrompt prompts id2 now).1 = none) := by
  refine ⟨?_, ?_, ?_⟩
  · intro hle
    have hnot : ¬(now - t0 > EXPIRY_MS) := by omega
    simp [getPrompt, putPrompt, hnot]
  · intro hgt
    simp [getPrompt, putPrompt, hgt]
  · intro habs
    simp [getPrompt, habs]

/-- Witness for `prompt_ttl_lookup` exercising all three hypotheses: store at
time 0, fresh lookup at `EXPIRY_MS`, expired lookup at `EXPIRY_MS + 1`. -/
theorem prompt_ttl_lookup_witness :
    ((EXPIRY_MS : Nat) - 0 ≤ EXPIRY_MS ∧
      (getPrompt (putPrompt (fun _ => none) "p1" "Be terse" "alloy" "m1" 0)
        "p1" EXPIRY_MS).1 = some ⟨"Be terse", "alloy", "m1", 0⟩) ∧
    ((EXPIRY_MS : Nat) + 1 - 0 > EXPIRY_MS ∧
      (getPrompt (putPrompt (fun _ => none) "p1" "Be terse" "alloy" "m1" 0)
        "p1" (EXPIRY_MS + 1)).1 = none) ∧
    ((fun (_ : String) => (none : Option PromptRecord)) "p2" = none ∧
      (getPrompt (fun _ => none) "p2" 5).1 = none) :=
  ⟨⟨by decide,
    (prompt_ttl_lookup (fun _ => none) "p1" "Be terse" "alloy" "m1" 0 EXPIRY_MS
      "p2").1 (by decide)⟩,
   ⟨by decide,
    ((prompt_ttl_lookup (fun _ => none) "p1" "Be terse" "alloy" "m1" 0
      (EXPIRY_MS + 1) "p2").2.1 (by decide)).1⟩,
   ⟨rfl,
    (prompt_ttl_lookup (fun _ => none) "p1" "Be terse" "alloy" "m1" 0 5
      "p2").2.2 rfl⟩⟩

/-- C9: frame decoding maps `decodeMuLawSample` over the bytes of the input
in order — the output has exactly twice as many bytes as the input
(one little-endian 16-bit sample per companded byte, sample `i` decoded from
byte `i`), and an empty input frame yields the empty result; the function is
total, so no input raises an error. -/
theorem decode_frame_shape (bytes : List Nat) (i : Nat) (h : i < bytes.length) :
    (decodeMuLawBase64ToPcm16 bytes).length = 2 * bytes.length ∧
    decodeMuLawBase64ToPcm16 [] = [] ∧
    ((decodeMuLawBase64ToPcm16 bytes).drop (2 * i)).take 2 =
      int16le (decodeMuLawSample (bytes.get ⟨i, h⟩)) :=
  ⟨decode_frame_length bytes, rfl, decode_frame_index bytes i h⟩

set_option maxRecDepth 2000 in
/-- Witness for `decode_frame_shape` on the two-byte frame `[0x00, 0xFF]`,
checking the sample at index 1. -/
theorem decode_frame_shape_witness :
    1 < ([0x00, 0xff] : List Nat).length ∧
    ((decodeMuLawBase64ToPcm16 [0x00, 0xff]).length = 2 * ([0x00, 0xff] : List Nat).length ∧
      decodeMuLawBase64ToPcm16 [] = [] ∧
      ((decodeMuLawBase64ToPcm16 [0x00, 0xff]).drop (2 * 1)).take 2 =
        int16le (decodeMuLawSample (([0x00, 0xff] : List Nat).get ⟨1, by decide⟩))) :=
  ⟨by decide, decode_frame_shape [0x00, 0xff] 1 (by decide)⟩

/-- C2: for any interleaving of delta events for two distinct keys followed
by their completed events carrying no explicit final text, the text resolved
for each key's completed event equals the concatenation of that key's delta
fragments in arrival order, and after a key's completed event no
PendingUtterance entry for that key remains in the map — in whichever order
the two completed events arrive (shown here finalizing key 1 first; the key
derivation is symmetric in the two keys). -/
theorem aggregator_two_key_interleaving
    (ds : List DeltaArgs) (i1 f1 i2 f2 : String) (ci1 ci2 : Nat)
    (hne : userKeyFor (strOr i1 f1) ci1 ≠ userKeyFor (strOr i2 f2) ci2)
    (_hkeys : ∀ d ∈ ds, deltaKey d = userKeyFor (strOr i1 f1) ci1 ∨
      deltaKey d = userKeyFor (strOr i2 f2) ci2) :
    (((finalizeUserTranscript (processDeltas emptyPartials ds) i1 f1 ci1
        "").2.text).getD "" = concatChunksFor ds (userKeyFor (strOr i1 f1) ci1)) ∧
    (((finalizeUserTranscript
        (finalizeUserTranscript (processDeltas emptyPartials ds) i1 f1 ci1 "").1
        i2 f2 ci2 "").2.text).getD ""
        = concatChunksFor ds (userKeyFor (strOr i2 f2) ci2)) ∧
    ((finalizeUserTranscript (processDeltas emptyPartials ds) i1 f1 ci1 "").1
        (userKeyFor (strOr i1 f1) ci1) = none) ∧
    ((finalizeUserTranscript
        (finalizeUserTranscript (processDeltas emptyPartials ds) i1 f1 ci1 "").1
        i2 f2 ci2 "").1 (userKeyFor (strOr i1 f1) ci1) = none) ∧
    ((finalizeUserTranscript
        (finalizeUserTranscript (processDeltas emptyPartials ds) i1 f1 ci1 "").1
        i2 f2 ci2 "").1 (userKeyFor (strOr i2 f2) ci2) = none) := by
  have hstate : ∀ k, textAt (processDeltas emptyPartials ds) k =
      concatChunksFor ds k := by
    intro k
    rw [textAt_processDeltas, textAt_emptyPartials]
    simp
  refine ⟨?_, ?_, ?_, ?_, ?_⟩
  · rw [finalize_resolved, hstate]
  · rw [finalize_resolved, finalize_fst,
      textAt_mapDelete_other _ _ _ (Ne.symm hne), hstate]
  · rw [finalize_fst]
    exact mapDelete_self _ _
  · rw [finalize_fst, finalize_fst, mapDelete_other _ _ _ hne]
    exact mapDelete_self _ _
  · rw [finalize_fst]
    exact mapDelete_self _ _

/-- Witness for `aggregator_two_key_interleaving`: deltas "he", "wor", "llo"
interleaved over the keys of items "A" and "B". -/
theorem aggregator_two_key_interleaving_witness :
    (userKeyFor (strOr "A" "") 0 ≠ userKeyFor (strOr "B" "") 0) ∧
    ((finalizeUserTranscript (processDeltas emptyPartials
        [⟨"A", "", 0, "he"⟩, ⟨"B", "", 0, "wor"⟩, ⟨"A", "", 0, "llo"⟩])
        "A" "" 0 "").2.text).getD ""
      = concatChunksFor [⟨"A", "", 0, "he"⟩, ⟨"B", "", 0, "wor"⟩, ⟨"A", "", 0, "llo"⟩]
          (userKeyFor (strOr "A" "") 0) := by
  refine ⟨by decide, ?_⟩
  exact (aggregator_two_key_interleaving
    [⟨"A", "", 0, "he"⟩, ⟨"B", "", 0, "wor"⟩, ⟨"A", "", 0, "llo"⟩]
    "A" "" "B" "" 0 0 (by decide) (by decide)).1

/-- C3: a completed event resolves the same key derivation as the deltas,
removes the PendingUtterance for that key, emits `final = true`, prefers an
explicit final transcript over the locally accumulated text, and carries
`text`/`append = false` only when the resolved text is non-empty — the text
field is omitted entirely when the resolved text is empty. -/
theorem finalize_completed_event (partials : PartialsMap)
    (itemId fallbackId : String) (ci : Nat) (finalText : String) :
    ((finalizeUserTranscript partials itemId fallbackId ci finalText).1
        (userKeyFor (strOr itemId fallbackId) ci) = none) ∧
    ((finalizeUserTranscript partials itemId fallbackId ci finalText).2.final
        = some true) ∧
    ((finalizeUserTranscript partials itemId fallbackId ci finalText).2.role
        = "user") ∧
    (finalText ≠ "" →
      (finalizeUserTranscript partials itemId fallbackId ci finalText).2.text
          = some finalText ∧
      (finalizeUserTranscript partials itemId fallbackId ci finalText).2.append
          = some false) ∧
    (finalText = "" →
      textAt partials (userKeyFor (strOr itemId fallbackId) ci) ≠ "" →
      (finalizeUserTranscript partials itemId fallbackId ci finalText).2.text
          = some (textAt partials (userKeyFor (strOr itemId fallbackId) ci)) ∧
      (finalizeUserTranscript partials itemId fallbackId ci finalText).2.append
          = some false) ∧
    (strOr finalText (textAt partials (userKeyFor (strOr itemId fallbackId) ci))
        = "" →
      (finalizeUserTranscript partials itemId fallbackId ci finalText).2.text
          = none ∧
      (finalizeUserTranscript partials itemId fallbackId ci finalText).2.append
          = none) := by
  refine ⟨?_, ?_, ?_, ?_, ?_, ?_⟩
  · rw [finalize_fst]
    exact mapDelete_self _ _
  · rw [finalize_ev]
    by_cases h : strOr finalText
        (textAt partials (userKeyFor (strOr itemId fallbackId) ci)) = "" <;>
      simp [h]
  · rw [finalize_ev]
    by_cases h : strOr finalText
        (textAt partials (userKeyFor (strOr itemId fallbackId) ci)) = "" <;>
      simp [h]
  · intro ht
    have hs : strOr finalText
        (textAt partials (userKeyFor (strOr itemId fallbackId) ci)) = finalText := by
      simp [strOr, ht]
    rw [finalize_ev, hs, if_neg ht]
    exact ⟨rfl, rfl⟩
  · intro ht htx
    subst ht
    have hs : strOr ""
        (textAt partials (userKeyFor (strOr itemId fallbackId) ci)) =
        textAt partials (userKeyFor (strOr itemId fallbackId) ci) := by
      simp [strOr]
    rw [finalize_ev, hs, if_neg htx]
    exact ⟨rfl, rfl⟩
  · intro h
    rw [finalize_ev, if_pos h]
    exact ⟨rfl, rfl⟩

/-- Witness for `finalize_completed_event`: an explicit final text on a
fresh aggregator state. -/
theorem finalize_completed_event_witness :
    ("final" : String) ≠ "" ∧
    (finalizeUserTranscript emptyPartials "item" "fb" 0 "final").2.text
      = some "final" ∧
    (finalizeUserTranscript emptyPartials "item" "fb" 0 "final").2.append
      = some false :=
  ⟨by decide,
   ((finalize_completed_event emptyPartials "item" "fb" 0 "final").2.2.2.1
      (by decide)).1,
   ((finalize_completed_event emptyPartials "item" "fb" 0 "final").2.2.2.1
      (by decide)).2⟩

/-- C5: no matter how many times and from which triggers `safeClose` is
invoked on a session, the post-call transcription pipeline (with its status
publications) starts at most once: the count of invocations passing the
one-shot `postCallTranscriptionStarted` guard is at most 1, and an
invocation finding the flag already set publishes nothing. -/
theorem teardown_pipeline_at_most_once (st : BridgeState) (why : String)
    (res : Option String) (calls : List (String × Option String)) :
    countPipelineStarts st calls ≤ 1 ∧
    (st.transcriptionStarted = true → (safeClose st why res).2 = []) := by
  constructor
  · cases calls with
    | nil => simp [countPipelineStarts]
    | cons c cs =>
      simp only [countPipelineStarts]
      rw [countPipelineStarts_of_started cs _ (safeClose_sets_flag st c.1 c.2)]
      by_cases h : st.transcriptionStarted <;> simp [h]
  · intro h
    simp [safeClose, h]

/-- Witness for `teardown_pipeline_at_most_once` on a session whose guard is
already set. -/
theorem teardown_pipeline_at_most_once_witness :
    countPipelineStarts { initialBridgeState with transcriptionStarted := true }
      [("twilio_stop", none), ("twilio_closed", some "t")] ≤ 1 ∧
    (safeClose { initialBridgeState with transcriptionStarted := true }
      "twilio_stop" none).2 = [] :=
  ⟨(teardown_pipeline_at_most_once
      { initialBridgeState with transcriptionStarted := true } "twilio_stop" none
      [("twilio_stop", none), ("twilio_closed", some "t")]).1,
   (teardown_pipeline_at_most_once
      { initialBridgeState with transcriptionStarted := true } "twilio_stop" none
      []).2 rfl⟩

/-- C6: when the buffered caller-audio is empty at teardown, `safeClose`
publishes exactly a transcription-failed status followed by `call_finished`,
emits no transcript event and no `post_call_processing` status; a full
session run `start; stop` with no media therefore shows the status sequence
`call_started`, `post_call_transcription_failed`, `call_finished`. -/
theorem empty_buffer_teardown_statuses (st : BridgeState) (why : String)
    (res res2 : Option String)
    (hbuf : st.inboundChunks = []) (hstart : st.transcriptionStarted = false) :
    (safeClose st why res).2 =
      [OutMsg.status "post_call_transcription_failed" st.streamSid,
       OutMsg.status "call_finished" st.streamSid] ∧
    (∀ e : TranscriptEvent, OutMsg.transcript e ∉ (safeClose st why res).2) ∧
    (∀ sid, OutMsg.status "post_call_processing" sid ∉ (safeClose st why res).2) ∧
    statusesOf (processTwilioEvents initialBridgeState
      [TwilioEvent.start (some "MZ123") true res,
       TwilioEvent.stop (some "MZ123") res2]).2 =
      ["call_started", "post_call_transcription_failed", "call_finished"] := by
  have hmsgs : (safeClose st why res).2 =
      [OutMsg.status "post_call_transcription_failed" st.streamSid,
       OutMsg.status "call_finished" st.streamSid] := by
    simp [safeClose, hstart, hbuf, postCallPipelineMsgs]
  refine ⟨hmsgs, ?_, ?_, ?_⟩
  · intro e
    rw [hmsgs]
    simp
  · intro sid
    rw [hmsgs]
    simp
  · rfl

/-- Witness for `empty_buffer_teardown_statuses` on a fresh session. -/
theorem empty_buffer_teardown_witness :
    initialBridgeState.inboundChunks = [] ∧
    initialBridgeState.transcriptionStarted = false ∧
    (safeClose initialBridgeState "twilio_stop" none).2 =
      [OutMsg.status "post_call_transcription_failed" initialBridgeState.streamSid,
       OutMsg.status "call_finished" initialBridgeState.streamSid] :=
  ⟨rfl, rfl,
   (empty_buffer_teardown_statuses initialBridgeState "twilio_stop" none none
      rfl rfl).1⟩

/-- C8 counterexample: the claim says `textFrom` returns the first NON-EMPTY
match among the fields `text`, `transcript`, `delta`, `content`, `value`,
but on `{text: "", transcript: "hi"}` the code returns the empty `text`
field, whereas the first non-empty match would be `"hi"`. -/
theorem textFrom_first_string_counterexample :
    textFrom (JsValue.obj [("text", JsValue.str ""), ("transcript", JsValue.str "hi")])
      = "" ∧
    textFromSpec (JsValue.obj [("text", JsValue.str ""), ("transcript", JsValue.str "hi")])
      = "hi" ∧
    textFrom (JsValue.obj [("text", JsValue.str ""), ("transcript", JsValue.str "hi")])
      ≠ textFromSpec
        (JsValue.obj [("text", JsValue.str ""), ("transcript", JsValue.str "hi")]) := by
  refine ⟨by decide, by decide, by decide⟩

/-- C8 as amended: `textFrom` returns a string payload itself, the
concatenation of the recursive extractions of a sequence payload, for a
structured object the FIRST of the fields `text`, `transcript`, `delta`,
`content`, `value` that holds a string — even when that string is empty —
and the empty string when nothing matches. -/
theorem textFrom_characterization (s : String) (vs : List JsValue)
    (fields : List (String × JsValue)) :
    textFrom (JsValue.str s) = s ∧
    textFrom JsValue.nullv = "" ∧
    textFrom JsValue.other = "" ∧
    textFrom (JsValue.arr vs) = (vs.map textFrom).foldr (· ++ ·) "" ∧
    textFrom (JsValue.obj fields) =
      (firstStringField fields
        ["text", "transcript", "delta", "content", "value"]).getD "" := by
  refine ⟨rfl, rfl, rfl, ?_, ?_⟩
  · induction vs with
    | nil => simp [textFrom, textFromList]
    | cons v tl ih =>
      simp [textFrom, textFromList] at ih ⊢
      rw [ih]
  · rcases h1 : getStringField fields "text" with _ | s1 <;>
      rcases h2 : getStringField fields "transcript" with _ | s2 <;>
        rcases h3 : getStringField fields "delta" with _ | s3 <;>
          rcases h4 : getStringField fields "content" with _ | s4 <;>
            rcases h5 : getStringField fields "value" with _ | s5 <;>
              simp [textFrom, firstStringField, h1, h2, h3, h4, h5]

/-- Helper: latching the stream id changes no other session field. -/
theorem latch_preserves (st : BridgeState) (sid : Option String) :
    (latchStreamSid st sid).openaiWsPresent = st.openaiWsPresent ∧
    (latchStreamSid st sid).inboundChunks = st.inboundChunks := by
  cases sid with
  | none => exact ⟨rfl, rfl⟩
  | some s =>
    simp only [latchStreamSid]
    split <;> exact ⟨rfl, rfl⟩

/-- C10: a `media` event arriving before any `start` has assigned the AI
connection is handled without error (the handler is total): nothing is
relayed upstream — in particular no append-audio send happens — yet a frame
on the caller (`inbound`) track, or with no track label, is still decoded
and its PCM chunk appended to the session's inbound audio buffer. -/
theorem media_before_start_buffered (st : BridgeState) (bytes : List Nat)
    (sid : Option String) (track : Option String)
    (hconn : st.openaiWsPresent = false)
    (htrack : track = none ∨ track = some "inbound") :
    (handleTwilioEvent st (TwilioEvent.media sid (some bytes) track)).2 = [] ∧
    (∀ p : List Nat, OutMsg.aiSend p ∉
      (handleTwilioEvent st (TwilioEvent.media sid (some bytes) track)).2) ∧
    (handleTwilioEvent st (TwilioEvent.media sid (some bytes) track)).1.inboundChunks
      = st.inboundChunks ++ [decodeMuLawBase64ToPcm16 bytes] := by
  have hl := latch_preserves st sid
  have hmain : (handleTwilioEvent st (TwilioEvent.media sid (some bytes) track))
      = ({ latchStreamSid st sid with inboundChunks :=
            (latchStreamSid st sid).inboundChunks ++ [decodeMuLawBase64ToPcm16 bytes] },
         []) := by
    obtain rfl | rfl := htrack <;>
      simp [handleTwilioEvent, eventStreamSid, hl.1, hconn, strOr]
  rw [hmain]
  refine ⟨rfl, by simp, ?_⟩
  show (latchStreamSid st sid).inboundChunks ++ [decodeMuLawBase64ToPcm16 bytes]
      = st.inboundChunks ++ [decodeMuLawBase64ToPcm16 bytes]
  rw [hl.2]

/-- Witness for `media_before_start_buffered` on a fresh (pre-`start`)
session receiving one caller frame. -/
theorem media_before_start_witness :
    initialBridgeState.openaiWsPresent = false ∧
    ((handleTwilioEvent initialBridgeState
        (TwilioEvent.media (some "MZ1") (some [0x7f]) none)).2 = [] ∧
      (∀ p : List Nat, OutMsg.aiSend p ∉
        (handleTwilioEvent initialBridgeState
          (TwilioEvent.media (some "MZ1") (some [0x7f]) none)).2) ∧
      (handleTwilioEvent initialBridgeState
          (TwilioEvent.media (some "MZ1") (some [0x7f]) none)).1.inboundChunks
        = initialBridgeState.inboundChunks ++ [decodeMuLawBase64ToPcm16 [0x7f]]) :=
  ⟨rfl,
   media_before_start_buffered initialBridgeState [0x7f] (some "MZ1") none rfl
     (Or.inl rfl)⟩

end VoiceBridge
